import Mathlib

/-!
Verification development for the st-deploycenter Account Identity &
Entitlement Resolution Engine.

The backend algorithms (identity resolver, admin entitlement resolvers,
auto-join onboarder) are shallowly embedded below; the frontend helper
`computeDefaultMode` is embedded from
`src/frontend/src/features/ui/components/service/implementations/ExtendedAdminServiceBlock.tsx`.
-/

namespace DeployCenter

/-- Modelled from the spec: an Account record of the Account Store.
Fields `email` and `external_id` may be blank (empty string); `type_`
is the account type (`user`, `mailbox`, ...); `org` identifies the owning
organization; `roles` is the organization-wide role list. -/
structure Account where
  email : String
  external_id : String
  type_ : String
  org : Nat
  roles : List String
  deriving Repr, DecidableEq

/-- Modelled from the spec: an account matches the `(type, organization)`
scope of a lookup. -/
def accInScope (org : Nat) (atype : String) (a : Account) : Bool :=
  a.org == org && a.type_ == atype

/-- Modelled from the spec: exact `external_id` match within scope. -/
def accMatchesExt (org : Nat) (atype ext : String) (a : Account) : Bool :=
  accInScope org atype a && a.external_id == ext

/-- Modelled from the spec: exact `email` match within scope. -/
def accMatchesEmail (org : Nat) (atype email : String) (a : Account) : Bool :=
  accInScope org atype a && a.email == email

/-- Modelled from the spec: the guarded backfill write of the Identity
Resolver — update the first account matching the email within scope,
setting its `external_id` to `ext` only if it is currently blank
(a single conditional update, per the concurrency model). -/
def backfillExternalId (org : Nat) (atype email ext : String) :
    List Account → List Account
  | [] => []
  | a :: rest =>
    if accMatchesEmail org atype email a then
      (if a.external_id == "" then { a with external_id := ext } else a) :: rest
    else
      a :: backfillExternalId org atype email ext rest

/-- Result of one resolver call: the account found (if any) and the
account store after the call (the backfill may have mutated it). -/
structure ResolveResult where
  found : Option Account
  store : List Account
  deriving Repr, DecidableEq

/-- Modelled from the spec: `Account.find_by_identifiers` — the Identity
Resolver.  Step 1: if `external_id` is non-blank, look it up within
`(account_type, organization)`; a hit is returned unchanged.  Step 2:
otherwise look up by non-blank `email`; on a hit, when `reconcile` (trust
binding) holds, the supplied `external_id` is non-blank and the stored one
is blank, backfill it.  Step 3: otherwise `NotFound` (`none`). -/
def find_by_identifiers (store : List Account) (org : Nat)
    (atype ext email : String) (reconcile : Bool) : ResolveResult :=
  let byEmail : ResolveResult :=
    if email == "" then ⟨none, store⟩
    else
      match store.find? (accMatchesEmail org atype email) with
      | some a =>
        if reconcile && a.external_id == "" && ext != "" then
          ⟨some { a with external_id := ext },
           backfillExternalId org atype email ext store⟩
        else ⟨some a, store⟩
      | none => ⟨none, store⟩
  if ext == "" then byEmail
  else
    match store.find? (accMatchesExt org atype ext) with
    | some a => ⟨some a, store⟩
    | none => byEmail

/-- Modelled from the spec: an Organization, as read by the resolution
engine — its `type_`, nullable `population`, and nullable declared contact
email `adresse_messagerie`. -/
structure Organization where
  type_ : String
  population : Option Nat
  adresse_messagerie : Option String
  deriving Repr, DecidableEq

/-- Modelled from the spec: a Service — its `type_` discriminates which
entitlement chain applies; `auto_admin_population_threshold` models the
optional `config["auto_admin_population_threshold"]` entry. -/
structure Service where
  type_ : String
  auto_admin_population_threshold : Option Nat
  deriving Repr, DecidableEq

/-- Default population threshold (both backend and frontend use 3500). -/
def DEFAULT_POPULATION_THRESHOLD : Nat := 3500

/-- Modelled from the spec: a ServiceSubscription — `auto_admin` models
the optional `metadata["auto_admin"]` entry (`"all"` or `"manual"`). -/
structure Subscription where
  is_active : Bool
  auto_admin : Option String
  deriving Repr, DecidableEq

/-- An entitlement decision: the boolean outcome and the level (name of
the rule that matched, for audit). -/
structure Entitlement where
  is_admin : Bool
  level : String
  deriving Repr, DecidableEq

/-- Modelled from the spec: the base `AdminEntitlementResolver` chain —
organization-wide role, then per-service link role, then deny.
`serviceRoles` is the account's `AccountServiceLink.roles` for this
service. -/
def adminEntitlement (account : Account) (serviceRoles : List String) :
    Entitlement :=
  if account.roles.contains "admin" then ⟨true, "organization"⟩
  else if serviceRoles.contains "admin" then ⟨true, "service"⟩
  else ⟨false, "none"⟩

/-- Modelled from the spec: the `ExtendedAdminEntitlementResolver` chain —
explicit role (base chain), then email-contact match against the
organization's `adresse_messagerie`, then the explicit `auto_admin`
metadata override, then the population fallback. -/
def extendedAdminEntitlement (account : Account)
    (serviceRoles : List String) (sub : Subscription)
    (org : Organization) (svc : Service) : Entitlement :=
  let base := adminEntitlement account serviceRoles
  if base.is_admin then base
  else if org.adresse_messagerie == some account.email then
    ⟨true, "email_contact"⟩
  else
    match sub.auto_admin with
    | some v => if v == "all" then ⟨true, "auto_admin"⟩ else ⟨false, "none"⟩
    | none =>
      let threshold :=
        svc.auto_admin_population_threshold.getD DEFAULT_POPULATION_THRESHOLD
      match org.population with
      | some p =>
        if p < threshold then ⟨true, "population"⟩ else ⟨false, "none"⟩
      | none => ⟨false, "none"⟩

/-- Modelled from the spec: service types using the extended chain
(`adc` and `esd`). -/
def EXTENDED_ADMIN_SERVICE_TYPES : List String := ["adc", "esd"]

/-- Modelled from the spec: the entitlement entry point — the service's
type selects which resolver chain runs. -/
def isAdmin (account : Account) (serviceRoles : List String)
    (sub : Subscription) (org : Organization) (svc : Service) : Entitlement :=
  if EXTENDED_ADMIN_SERVICE_TYPES.contains svc.type_ then
    extendedAdminEntitlement account serviceRoles sub org svc
  else
    adminEntitlement account serviceRoles

/-- Embedded from
`src/frontend/.../ExtendedAdminServiceBlock.tsx`: `ADMIN_MODE_ALL`. -/
def ADMIN_MODE_ALL : String := "all"

/-- Embedded from
`src/frontend/.../ExtendedAdminServiceBlock.tsx`: `ADMIN_MODE_MANUAL`. -/
def ADMIN_MODE_MANUAL : String := "manual"

/-- Embedded from
`src/frontend/.../ExtendedAdminServiceBlock.tsx`: `computeDefaultMode` —
the default auto-admin mode shown when no choice is persisted:
threshold is `service.config?.auto_admin_population_threshold ?? 3500`;
`"all"` when `organization.population != null && population < threshold`,
else `"manual"`. -/
def computeDefaultMode (organization : Organization) (service : Service) :
    String :=
  let threshold :=
    service.auto_admin_population_threshold.getD DEFAULT_POPULATION_THRESHOLD
  match organization.population with
  | some p => if p < threshold then ADMIN_MODE_ALL else ADMIN_MODE_MANUAL
  | none => ADMIN_MODE_MANUAL

/-- Modelled from the spec: the `auto_join` entry of an operator's config —
organization types to match and service ids to subscribe. -/
structure AutoJoinConfig where
  types : List String
  services : List Nat
  deriving Repr, DecidableEq

/-- Modelled from the spec: an Operator — active flag and the optional
`auto_join` key of its `config` JSON field. -/
structure Operator where
  id : Nat
  is_active : Bool
  auto_join : Option AutoJoinConfig
  deriving Repr, DecidableEq

/-- Modelled from the spec: an Organization row as seen by the onboarder —
its id and `type`. -/
structure OrgRow where
  id : Nat
  type_ : String
  deriving Repr, DecidableEq

/-- Modelled from the spec: an OperatorOrganizationRole row. -/
structure OperatorOrganizationRole where
  operator : Nat
  organization : Nat
  role : String
  deriving Repr, DecidableEq

/-- Modelled from the spec: a ServiceSubscription row as written by the
onboarder. -/
structure ServiceSubscription where
  organization : Nat
  service : Nat
  is_active : Bool
  deriving Repr, DecidableEq

/-- Modelled from the spec: the tables the onboarder writes. -/
structure JoinDB where
  roles : List OperatorOrganizationRole
  subs : List ServiceSubscription
  deriving Repr, DecidableEq

/-- The unique key `(operator, organization)` of a role row is present. -/
def roleKeyPresent (rs : List OperatorOrganizationRole) (op orgId : Nat) :
    Bool :=
  rs.any fun r => r.operator == op && r.organization == orgId

/-- The unique key `(organization, service)` of a subscription row is
present. -/
def subKeyPresent (ss : List ServiceSubscription) (orgId svcId : Nat) :
    Bool :=
  ss.any fun s => s.organization == orgId && s.service == svcId

/-- Modelled from the spec: conflict-free insert of one role row
(`ignore_conflicts=True`) — a pre-existing `(operator, organization)` key
makes the attempt a no-op counted as 0 creations. -/
def insertRole (rs : List OperatorOrganizationRole)
    (r : OperatorOrganizationRole) : List OperatorOrganizationRole × Nat :=
  if roleKeyPresent rs r.operator r.organization then (rs, 0)
  else (rs ++ [r], 1)

/-- Modelled from the spec: conflict-free bulk insert of role rows,
returning the table and the number actually created. -/
def insertRoles : List OperatorOrganizationRole →
    List OperatorOrganizationRole → List OperatorOrganizationRole × Nat
  | rs, [] => (rs, 0)
  | rs, r :: pending =>
    let p1 := insertRole rs r
    let p2 := insertRoles p1.1 pending
    (p2.1, p1.2 + p2.2)

/-- Modelled from the spec: conflict-free insert of one subscription row —
a pre-existing `(organization, service)` key makes the attempt a no-op. -/
def insertSub (ss : List ServiceSubscription) (s : ServiceSubscription) :
    List ServiceSubscription × Nat :=
  if subKeyPresent ss s.organization s.service then (ss, 0)
  else (ss ++ [s], 1)

/-- Modelled from the spec: conflict-free bulk insert of subscription
rows. -/
def insertSubs : List ServiceSubscription → List ServiceSubscription →
    List ServiceSubscription × Nat
  | ss, [] => (ss, 0)
  | ss, s :: pending =>
    let p1 := insertSub ss s
    let p2 := insertSubs p1.1 pending
    (p2.1, p1.2 + p2.2)

/-- Modelled from the spec: the role rows one operator attempts to create —
one "manages" role per organization whose type matches the config. -/
def operatorRoleRows (op : Operator) (cfg : AutoJoinConfig)
    (orgs : List OrgRow) : List OperatorOrganizationRole :=
  (orgs.filter fun o => cfg.types.contains o.type_).map
    fun o => ⟨op.id, o.id, "manages"⟩

/-- Modelled from the spec: the active subscription rows one operator
attempts to create — one per (matched organization, declared service), the
service kept only when an OperatorServiceConfig `(operator, service)` pair
exists (others are skipped with a warning). -/
def operatorSubRows (op : Operator) (cfg : AutoJoinConfig)
    (orgs : List OrgRow) (oscs : List (Nat × Nat)) :
    List ServiceSubscription :=
  let validServices := cfg.services.filter fun s => oscs.contains (op.id, s)
  ((orgs.filter fun o => cfg.types.contains o.type_).map
    fun o => validServices.map fun s => ⟨o.id, s, true⟩).flatten

/-- Modelled from the spec: process one operator — only active operators
with an `auto_join` config act; they bulk-insert their role and
subscription rows, conflict-free. -/
def processOperator (db : JoinDB) (orgs : List OrgRow)
    (oscs : List (Nat × Nat)) (op : Operator) : JoinDB × Nat × Nat :=
  match op.auto_join with
  | none => (db, 0, 0)
  | some cfg =>
    if op.is_active then
      let p1 := insertRoles db.roles (operatorRoleRows op cfg orgs)
      let p2 := insertSubs db.subs (operatorSubRows op cfg orgs oscs)
      (⟨p1.1, p2.1⟩, p1.2, p2.2)
    else (db, 0, 0)

/-- Modelled from the spec: `_process_auto_join` — run the onboarder over
all operators, threading the tables and summing the creation counts
(`operator_organization_roles_created`, `service_subscriptions_created`). -/
def autoJoinRun : JoinDB → List Operator → List OrgRow →
    List (Nat × Nat) → JoinDB × Nat × Nat
  | db, [], _, _ => (db, 0, 0)
  | db, op :: ops, orgs, oscs =>
    let p1 := processOperator db orgs oscs op
    let p2 := autoJoinRun p1.1 ops orgs oscs
    (p2.1, p1.2.1 + p2.2.1, p1.2.2 + p2.2.2)

/-- Modelled from the spec: two accounts violate the conditional
`UNIQUE(external_id, type, organization) WHERE external_id != ''`
constraint. -/
def extConflict (a b : Account) : Bool :=
  a.external_id != "" && a.external_id == b.external_id &&
  a.type_ == b.type_ && a.org == b.org

/-- Modelled from the spec: two accounts violate the conditional
`UNIQUE(email, type, organization) WHERE email != ''` constraint. -/
def emailConflict (a b : Account) : Bool :=
  a.email != "" && a.email == b.email && a.type_ == b.type_ && a.org == b.org

/-- The Account Store invariant: no two distinct records violate either
conditional uniqueness constraint (blank values are exempt by the
`!= ""` guard inside the conflict predicates). -/
def AccountInvariant (store : List Account) : Prop :=
  store.Pairwise fun a b => extConflict a b = false ∧ emailConflict a b = false

/-- Modelled from the spec: write-time enforcement — creating an account
fails with IntegrityViolation (`none`) when it would conflict with an
existing record, and otherwise adds the record. -/
def createAccount (store : List Account) (a : Account) :
    Option (List Account) :=
  if store.any fun b => extConflict a b || emailConflict a b then none
  else some (a :: store)

/-- Subscription rows have pairwise-distinct `(organization, service)`
keys (the table's unique constraint). -/
def SubsKeyUnique (ss : List ServiceSubscription) : Prop :=
  ss.Pairwise fun a b =>
    ¬(a.organization = b.organization ∧ a.service = b.service)

/-- The backfill write leaves every position holding an account with a
non-blank `external_id` untouched: only a blank identifier can be
replaced. -/
theorem backfill_getElem_of_nonblank (org : Nat) (atype email ext : String) :
    ∀ (store : List Account) (i : Nat) (a : Account),
      store[i]? = some a → a.external_id ≠ "" →
      (backfillExternalId org atype email ext store)[i]? = some a := by
  intro store
  induction store with
  | nil => intro i a h _; simp at h
  | cons b rest ih =>
    intro i a h hne
    simp only [backfillExternalId]
    by_cases hm : accMatchesEmail org atype email b = true
    · rw [if_pos hm]
      cases i with
      | zero =>
        have hab : b = a := by simpa using h
        subst hab
        have hb : (b.external_id == "") = false := by
          simpa using hne
        simp [hb]
      | succ n => simpa using h
    · rw [if_neg hm]
      cases i with
      | zero => simpa using h
      | succ n =>
        simp only [List.getElem?_cons_succ]
        exact ih n a (by simpa using h) hne

/-- C1: for every Account whose `external_id` is non-blank, any call to
the Identity Resolver — any supplied `external_id` and `email`, any value
of the trust flag, including a trusted call with the same email and a
different supplied `external_id` — leaves that Account record (and in
particular its `external_id`) unchanged in the store: a non-blank
`external_id` is never overwritten through the resolver. -/
theorem c1_resolver_never_overwrites_nonblank_external_id
    (store : List Account) (org : Nat) (atype ext email : String)
    (tb : Bool) (i : Nat) (a : Account)
    (hmem : store[i]? = some a) (hne : a.external_id ≠ "") :
    (find_by_identifiers store org atype ext email tb).store[i]? = some a := by
  unfold find_by_identifiers
  dsimp only
  split
  · split
    · exact hmem
    · split
      · split
        · exact backfill_getElem_of_nonblank org atype email ext store i a
            hmem hne
        · exact hmem
      · exact hmem
  · split
    · exact hmem
    · split
      · exact hmem
      · split
        · split
          · exact backfill_getElem_of_nonblank org atype email ext store i a
              hmem hne
          · exact hmem
        · exact hmem

/-- Witness for C1: a concrete trusted call with the same email and a
different supplied `external_id` leaves the stored account intact. -/
theorem c1_witness :
    (find_by_identifiers
      [⟨"alice@org.fr", "X", "user", 1, []⟩] 1 "user" "Y" "alice@org.fr"
      true).store[0]? = some ⟨"alice@org.fr", "X", "user", 1, []⟩ :=
  c1_resolver_never_overwrites_nonblank_external_id
    [⟨"alice@org.fr", "X", "user", 1, []⟩] 1 "user" "Y" "alice@org.fr"
    true 0 ⟨"alice@org.fr", "X", "user", 1, []⟩ (by rfl) (by decide)

/-- C4: with a non-blank `external_id`, the resolver returns an
`external_id` match unchanged when one exists (whatever the email
matches); otherwise an email match (possibly backfilled when trusted) is
returned; and the result is `NotFound` exactly when neither lookup
matches. -/
theorem c4_lookup_order
    (store : List Account) (org : Nat) (atype ext email : String) (tb : Bool)
    (hext : ext ≠ "") :
    (∀ a, store.find? (accMatchesExt org atype ext) = some a →
       find_by_identifiers store org atype ext email tb = ⟨some a, store⟩) ∧
    (store.find? (accMatchesExt org atype ext) = none → email ≠ "" →
       ∀ a, store.find? (accMatchesEmail org atype email) = some a →
         (find_by_identifiers store org atype ext email tb).found = some a ∨
         (tb = true ∧ a.external_id = "" ∧
          (find_by_identifiers store org atype ext email tb).found =
            some { a with external_id := ext })) ∧
    ((find_by_identifiers store org atype ext email tb).found = none ↔
       (store.find? (accMatchesExt org atype ext) = none ∧
        (email = "" ∨ store.find? (accMatchesEmail org atype email) = none))) := by
  have hbe : (ext == "") = false := by simpa using hext
  refine ⟨?_, ?_, ?_⟩
  · intro a hfind
    simp [find_by_identifiers, hbe, hfind]
  · intro hnone hemail a hfinde
    have hbm : (email == "") = false := by simpa using hemail
    by_cases hc : (tb && (a.external_id == "") && (ext != "")) = true
    · have hc' := hc
      simp only [Bool.and_eq_true, beq_iff_eq, bne_iff_ne, ne_eq] at hc'
      right
      refine ⟨hc'.1.1, hc'.1.2, ?_⟩
      simp [find_by_identifiers, hbe, hnone, hbm, hfinde, hc'.1.1,
        hc'.1.2, hext]
    · have hcf : (tb && (a.external_id == "") && (ext != "")) = false := by
        simpa using hc
      left
      simp [find_by_identifiers, hbe, hnone, hbm, hfinde, hcf]
  · cases hfind : store.find? (accMatchesExt org atype ext) with
    | some a => simp [find_by_identifiers, hbe, hfind]
    | none =>
      by_cases hbm : (email == "") = true
      · have : email = "" := by simpa using hbm
        simp [find_by_identifiers, hbe, hfind, hbm, this]
      · have hne : email ≠ "" := by simpa using hbm
        cases hfinde : store.find? (accMatchesEmail org atype email) with
        | some a =>
          by_cases hc : (tb && (a.external_id == "") && (ext != "")) = true
          · have hc' := hc
            simp only [Bool.and_eq_true, beq_iff_eq, bne_iff_ne, ne_eq] at hc'
            simp [find_by_identifiers, hbe, hfind, hfinde, hne, hc'.1.1,
              hc'.1.2, hext]
          · have hcf : (tb && (a.external_id == "") && (ext != "")) = false :=
              by simpa using hc
            simp [find_by_identifiers, hbe, hfind, hfinde, hne, hcf]
        | none =>
          simp [find_by_identifiers, hbe, hfind, hfinde, hne]

/-- Witness for C4: with one account matching the supplied `external_id`
and a different account matching the email, the resolver returns the
`external_id` match unchanged. -/
theorem c4_witness :
    find_by_identifiers
      [⟨"b@org.fr", "E", "user", 1, []⟩, ⟨"a@org.fr", "", "user", 1, []⟩]
      1 "user" "E" "a@org.fr" false =
      ⟨some ⟨"b@org.fr", "E", "user", 1, []⟩,
       [⟨"b@org.fr", "E", "user", 1, []⟩,
        ⟨"a@org.fr", "", "user", 1, []⟩]⟩ :=
  (c4_lookup_order
    [⟨"b@org.fr", "E", "user", 1, []⟩, ⟨"a@org.fr", "", "user", 1, []⟩]
    1 "user" "E" "a@org.fr" false (by decide)).1
    ⟨"b@org.fr", "E", "user", 1, []⟩ (by decide)

/-- After a triggered backfill, the `external_id` lookup finds exactly the
updated account: the binding becomes the fast path for later calls. -/
theorem find_ext_after_backfill (org : Nat) (atype email ext : String) :
    ∀ (store : List Account) (a : Account),
      store.find? (accMatchesExt org atype ext) = none →
      store.find? (accMatchesEmail org atype email) = some a →
      a.external_id = "" →
      (backfillExternalId org atype email ext store).find?
        (accMatchesExt org atype ext) = some { a with external_id := ext } := by
  intro store
  induction store with
  | nil => intro a _ h2 _; simp at h2
  | cons b rest ih =>
    intro a h1 h2 hblank
    by_cases hm : accMatchesEmail org atype email b = true
    · have hab : b = a := by
        rw [List.find?_cons_of_pos _ hm] at h2
        simpa using h2
      subst hab
      have hscope : b.org = org ∧ b.type_ = atype := by
        have h := hm
        simp only [accMatchesEmail, accInScope, Bool.and_eq_true,
          beq_iff_eq] at h
        exact h.1
      simp only [backfillExternalId, if_pos hm]
      have hb : (b.external_id == "") = true := by simp [hblank]
      rw [if_pos hb]
      apply List.find?_cons_of_pos
      simp [accMatchesExt, accInScope, hscope.1, hscope.2]
    · have h2' : rest.find? (accMatchesEmail org atype email) = some a := by
        rwa [List.find?_cons_of_neg _ (by simpa using hm)] at h2
      by_cases hx : accMatchesExt org atype ext b = true
      · rw [List.find?_cons_of_pos _ hx] at h1
        exact absurd h1 (by simp)
      · have h1' : rest.find? (accMatchesExt org atype ext) = none := by
          rwa [List.find?_cons_of_neg _ (by simpa using hx)] at h1
        simp only [backfillExternalId]
        rw [if_neg hm]
        rw [List.find?_cons_of_neg _ (by simpa using hx)]
        exact ih a h1' h2' hblank

/-- One resolver call either leaves the store untouched or performs
exactly the trusted backfill, with all its guards known to hold. -/
theorem resolve_store_cases (store : List Account) (org : Nat)
    (atype ext email : String) (tb : Bool) :
    (find_by_identifiers store org atype ext email tb).store = store ∨
    (∃ a, (ext == "") = false ∧
      store.find? (accMatchesExt org atype ext) = none ∧
      (email == "") = false ∧
      store.find? (accMatchesEmail org atype email) = some a ∧
      a.external_id = "" ∧
      (find_by_identifiers store org atype ext email tb).store =
        backfillExternalId org atype email ext store) := by
  unfold find_by_identifiers
  dsimp only
  split
  next hbe =>
    split
    next => left; rfl
    next =>
      split
      next a heq =>
        split
        next hc =>
          have hc' : (tb = true ∧ a.external_id = "") ∧ ¬ext = "" := by
            simpa using hc
          exact absurd (by simpa using hbe) hc'.2
        next => left; rfl
      next => left; rfl
  next hbe =>
    split
    next a heq => left; rfl
    next heq =>
      split
      next => left; rfl
      next hbm =>
        split
        next a hfe =>
          split
          next hc =>
            right
            have hc' : (tb = true ∧ a.external_id = "") ∧ ¬ext = "" := by
              simpa using hc
            exact ⟨a, by simpa using hbe, heq, by simpa using hbm, hfe,
              hc'.1.2, rfl⟩
          next => left; rfl
        next => left; rfl

/-- C9: the trusted backfill is idempotent — running the same resolver
call twice, the second call leaves the store exactly as the first call
left it. -/
theorem c9_resolver_idempotent (store : List Account) (org : Nat)
    (atype ext email : String) (tb : Bool) :
    (find_by_identifiers (find_by_identifiers store org atype ext email
      tb).store org atype ext email tb).store =
    (find_by_identifiers store org atype ext email tb).store := by
  rcases resolve_store_cases store org atype ext email tb with
    h | ⟨a, hbe, hnone, _, hfinde, hblank, hstore⟩
  · rw [h]
    exact h
  · rw [hstore]
    have hfound := find_ext_after_backfill org atype email ext store a
      hnone hfinde hblank
    unfold find_by_identifiers
    dsimp only
    rw [if_neg (by simp [hbe])]
    simp only [hfound]

/-- C2: with no explicit role and no email-contact match, a present
`auto_admin` key decides the extended chain by itself: `"all"` admits at
level `auto_admin` and `"manual"` denies, and whenever the key is present
the result does not depend on the organization's population at all. -/
theorem c2_auto_admin_overrides_population
    (account : Account) (serviceRoles : List String) (sub : Subscription)
    (org : Organization) (svc : Service)
    (h1 : account.roles.contains "admin" = false)
    (h2 : serviceRoles.contains "admin" = false)
    (h3 : (org.adresse_messagerie == some account.email) = false) :
    (sub.auto_admin = some "all" →
      extendedAdminEntitlement account serviceRoles sub org svc =
        ⟨true, "auto_admin"⟩) ∧
    (sub.auto_admin = some "manual" →
      (extendedAdminEntitlement account serviceRoles sub org svc).is_admin =
        false) ∧
    (sub.auto_admin.isSome = true → ∀ p,
      extendedAdminEntitlement account serviceRoles sub
        { org with population := p } svc =
      extendedAdminEntitlement account serviceRoles sub org svc) := by
  have h1' : "admin" ∉ account.roles := by simpa using h1
  have h2' : "admin" ∉ serviceRoles := by simpa using h2
  refine ⟨?_, ?_, ?_⟩
  · intro h
    simp [extendedAdminEntitlement, adminEntitlement, h1', h2', h3, h]
  · intro h
    simp [extendedAdminEntitlement, adminEntitlement, h1', h2', h3, h]
  · intro h p
    obtain ⟨v, hv⟩ := Option.isSome_iff_exists.mp h
    simp [extendedAdminEntitlement, adminEntitlement, h1', h2', h3, hv]

/-- Witness for C2: an explicit `auto_admin="all"` admits at level
`auto_admin` on an organization far above the threshold. -/
theorem c2_witness :
    extendedAdminEntitlement ⟨"a@org.fr", "", "user", 1, []⟩ []
      ⟨true, some "all"⟩ ⟨"commune", some 10000, none⟩ ⟨"adc", none⟩ =
      ⟨true, "auto_admin"⟩ :=
  (c2_auto_admin_overrides_population ⟨"a@org.fr", "", "user", 1, []⟩ []
    ⟨true, some "all"⟩ ⟨"commune", some 10000, none⟩ ⟨"adc", none⟩
    (by decide) (by decide) (by decide)).1 rfl

/-- C5: with no explicit role, no email-contact match and no `auto_admin`
key, the extended chain admits at level `population` exactly when the
population is known and strictly below the configured threshold
(default 3500), and a null population always falls through to deny. -/
theorem c5_population_fallback
    (account : Account) (serviceRoles : List String) (sub : Subscription)
    (org : Organization) (svc : Service)
    (h1 : account.roles.contains "admin" = false)
    (h2 : serviceRoles.contains "admin" = false)
    (h3 : (org.adresse_messagerie == some account.email) = false)
    (h4 : sub.auto_admin = none) :
    (extendedAdminEntitlement account serviceRoles sub org svc =
        ⟨true, "population"⟩ ↔
      ∃ p, org.population = some p ∧
        p < svc.auto_admin_population_threshold.getD
              DEFAULT_POPULATION_THRESHOLD) ∧
    (org.population = none →
      extendedAdminEntitlement account serviceRoles sub org svc =
        ⟨false, "none"⟩) := by
  have h1' : "admin" ∉ account.roles := by simpa using h1
  have h2' : "admin" ∉ serviceRoles := by simpa using h2
  constructor
  · cases hp : org.population with
    | none =>
      simp [extendedAdminEntitlement, adminEntitlement, h1', h2', h3, h4, hp]
    | some p =>
      by_cases hlt : p < svc.auto_admin_population_threshold.getD
          DEFAULT_POPULATION_THRESHOLD
      · simp [extendedAdminEntitlement, adminEntitlement, h1', h2', h3, h4,
          hp, hlt]
      · simp [extendedAdminEntitlement, adminEntitlement, h1', h2', h3, h4,
          hp, hlt]
  · intro hp
    simp [extendedAdminEntitlement, adminEntitlement, h1', h2', h3, h4, hp]

/-- Witness for C5: population 500 under the default threshold admits at
level `population` when no `auto_admin` choice is present. -/
theorem c5_witness :
    extendedAdminEntitlement ⟨"a@org.fr", "", "user", 1, []⟩ []
      ⟨true, none⟩ ⟨"commune", some 500, none⟩ ⟨"adc", none⟩ =
      ⟨true, "population"⟩ :=
  (c5_population_fallback ⟨"a@org.fr", "", "user", 1, []⟩ []
    ⟨true, none⟩ ⟨"commune", some 500, none⟩ ⟨"adc", none⟩
    (by decide) (by decide) (by decide) rfl).1.mpr ⟨500, rfl, by decide⟩

/-- C6: a service whose type is not flagged for extended-admin behavior is
decided solely by the base chain, in order, and the decision is
independent of the subscription (hence of any `auto_admin` metadata). -/
theorem c6_unflagged_service_uses_base_chain
    (account : Account) (serviceRoles : List String) (sub : Subscription)
    (org : Organization) (svc : Service)
    (h : EXTENDED_ADMIN_SERVICE_TYPES.contains svc.type_ = false) :
    isAdmin account serviceRoles sub org svc =
      (if account.roles.contains "admin" then ⟨true, "organization"⟩
       else if serviceRoles.contains "admin" then ⟨true, "service"⟩
       else ⟨false, "none"⟩) ∧
    (∀ sub', isAdmin account serviceRoles sub' org svc =
      isAdmin account serviceRoles sub org svc) := by
  have h' : svc.type_ ∉ EXTENDED_ADMIN_SERVICE_TYPES := by simpa using h
  constructor
  · simp [isAdmin, adminEntitlement, h']
  · intro sub'
    simp [isAdmin, h']

/-- Witness for C6: an unflagged service type denies a role-less account
even though the subscription carries `auto_admin="all"`. -/
theorem c6_witness :
    isAdmin ⟨"a@org.fr", "", "user", 1, []⟩ [] ⟨true, some "all"⟩
      ⟨"commune", some 500, none⟩ ⟨"web", none⟩ = ⟨false, "none"⟩ :=
  (c6_unflagged_service_uses_base_chain ⟨"a@org.fr", "", "user", 1, []⟩ []
    ⟨true, some "all"⟩ ⟨"commune", some 500, none⟩ ⟨"web", none⟩
    (by decide)).1.trans (by decide)

/-- C10: the frontend's `computeDefaultMode` returns `"all"` exactly when
the population is known and strictly below the configured threshold
(default 3500), returns only `"all"` or `"manual"`, and its `"all"`
answer coincides with the backend extended chain admitting an account
with no explicit role, no email-contact match and no persisted
`auto_admin` choice. -/
theorem c10_default_mode_matches_backend
    (account : Account) (serviceRoles : List String) (sub : Subscription)
    (org : Organization) (svc : Service)
    (h1 : account.roles.contains "admin" = false)
    (h2 : serviceRoles.contains "admin" = false)
    (h3 : (org.adresse_messagerie == some account.email) = false)
    (h4 : sub.auto_admin = none) :
    (computeDefaultMode org svc = ADMIN_MODE_ALL ↔
      ∃ p, org.population = some p ∧
        p < svc.auto_admin_population_threshold.getD
              DEFAULT_POPULATION_THRESHOLD) ∧
    (computeDefaultMode org svc = ADMIN_MODE_ALL ∨
      computeDefaultMode org svc = ADMIN_MODE_MANUAL) ∧
    (computeDefaultMode org svc = ADMIN_MODE_ALL ↔
      (extendedAdminEntitlement account serviceRoles sub org svc).is_admin =
        true) := by
  have h1' : "admin" ∉ account.roles := by simpa using h1
  have h2' : "admin" ∉ serviceRoles := by simpa using h2
  refine ⟨?_, ?_, ?_⟩
  · cases hp : org.population with
    | none => simp [computeDefaultMode, hp, ADMIN_MODE_ALL, ADMIN_MODE_MANUAL]
    | some p =>
      by_cases hlt : p < svc.auto_admin_population_threshold.getD
          DEFAULT_POPULATION_THRESHOLD
      · simp [computeDefaultMode, hp, hlt, ADMIN_MODE_ALL]
      · simp [computeDefaultMode, hp, hlt, ADMIN_MODE_ALL, ADMIN_MODE_MANUAL]
  · cases hp : org.population with
    | none => right; simp [computeDefaultMode, hp]
    | some p =>
      by_cases hlt : p < svc.auto_admin_population_threshold.getD
          DEFAULT_POPULATION_THRESHOLD
      · left; simp [computeDefaultMode, hp, hlt]
      · right; simp [computeDefaultMode, hp, hlt]
  · cases hp : org.population with
    | none =>
      simp [computeDefaultMode, extendedAdminEntitlement, adminEntitlement,
        h1', h2', h3, h4, hp, ADMIN_MODE_ALL, ADMIN_MODE_MANUAL]
    | some p =>
      by_cases hlt : p < svc.auto_admin_population_threshold.getD
          DEFAULT_POPULATION_THRESHOLD
      · simp [computeDefaultMode, extendedAdminEntitlement,
          adminEntitlement, h1', h2', h3, h4, hp, hlt, ADMIN_MODE_ALL]
      · simp [computeDefaultMode, extendedAdminEntitlement,
          adminEntitlement, h1', h2', h3, h4, hp, hlt, ADMIN_MODE_ALL,
          ADMIN_MODE_MANUAL]

/-- Witness for C10: on a commune of population 500 with the default
threshold, the frontend default `"all"` agrees with the backend admitting
a role-less account. -/
theorem c10_witness :
    (extendedAdminEntitlement ⟨"a@org.fr", "", "user", 1, []⟩ []
      ⟨true, none⟩ ⟨"commune", some 500, none⟩ ⟨"adc", none⟩).is_admin =
      true :=
  (c10_default_mode_matches_backend ⟨"a@org.fr", "", "user", 1, []⟩ []
    ⟨true, none⟩ ⟨"commune", some 500, none⟩ ⟨"adc", none⟩
    (by decide) (by decide) (by decide) rfl).2.2.mp (by decide)

/-- Every element of the store after a backfill is either an original
element or the conditional update of an email-matched element whose
`external_id` was blank. -/
theorem mem_backfill (org : Nat) (atype email ext : String) :
    ∀ (l : List Account) (y : Account),
      y ∈ backfillExternalId org atype email ext l →
      y ∈ l ∨ ∃ x, x ∈ l ∧ accMatchesEmail org atype email x = true ∧
        x.external_id = "" ∧ y = { x with external_id := ext } := by
  intro l
  induction l with
  | nil => intro y hy; simp [backfillExternalId] at hy
  | cons b rest ih =>
    intro y hy
    by_cases hm : accMatchesEmail org atype email b = true
    · rw [backfillExternalId, if_pos hm] at hy
      rcases List.mem_cons.mp hy with hy | hy
      · by_cases hblank : (b.external_id == "") = true
        · rw [if_pos hblank] at hy
          exact Or.inr ⟨b, List.mem_cons_self b rest, hm,
            by simpa using hblank, hy⟩
        · rw [if_neg hblank] at hy
          exact Or.inl (hy ▸ List.mem_cons_self b rest)
      · exact Or.inl (List.mem_cons_of_mem b hy)
    · rw [backfillExternalId, if_neg hm] at hy
      rcases List.mem_cons.mp hy with hy | hy
      · exact Or.inl (hy ▸ List.mem_cons_self b rest)
      · rcases ih y hy with hy' | ⟨x, hx, hxm, hxb, hxe⟩
        · exact Or.inl (List.mem_cons_of_mem b hy')
        · exact Or.inr ⟨x, List.mem_cons_of_mem b hx, hxm, hxb, hxe⟩

/-- The backfill write preserves the Account Store uniqueness invariant,
provided no account in the store already carries the supplied
`external_id` in the lookup scope (which is exactly the state in which
the resolver performs the write). -/
theorem backfill_preserves_invariant (org : Nat) (atype email ext : String) :
    ∀ (store : List Account),
      (∀ x ∈ store, accMatchesExt org atype ext x = false) →
      AccountInvariant store →
      AccountInvariant (backfillExternalId org atype email ext store) := by
  intro store
  induction store with
  | nil =>
    intro _ _
    simp [AccountInvariant, backfillExternalId]
  | cons b rest ih =>
    intro hext hinv
    obtain ⟨hb, hrest⟩ := List.pairwise_cons.mp hinv
    by_cases hm : accMatchesEmail org atype email b = true
    · rw [backfillExternalId, if_pos hm]
      by_cases hblank : (b.external_id == "") = true
      · rw [if_pos hblank]
        refine List.pairwise_cons.mpr ⟨?_, hrest⟩
        intro x hx
        have hm' : (b.org = org ∧ b.type_ = atype) ∧ b.email = email := by
          simpa [accMatchesEmail, accInScope] using hm
        constructor
        · by_contra hc
          have hc' : extConflict { b with external_id := ext } x = true := by
            simpa using hc
          simp only [extConflict, Bool.and_eq_true, bne_iff_ne, ne_eq,
            beq_iff_eq] at hc'
          obtain ⟨⟨⟨h1, h2⟩, h3⟩, h4⟩ := hc'
          have hxo : x.org = org := by rw [← h4, hm'.1.1]
          have hxt : x.type_ = atype := by rw [← h3, hm'.1.2]
          have hxe : x.external_id = ext := h2.symm
          have hxm : accMatchesExt org atype ext x = true := by
            simp [accMatchesExt, accInScope, hxo, hxt, hxe]
          rw [hext x (List.mem_cons_of_mem b hx)] at hxm
          exact Bool.noConfusion hxm
        · exact (hb x hx).2
      · rw [if_neg hblank]
        exact List.pairwise_cons.mpr ⟨hb, hrest⟩
    · rw [backfillExternalId, if_neg hm]
      refine List.pairwise_cons.mpr ⟨?_, ?_⟩
      · intro y hy
        rcases mem_backfill org atype email ext rest y hy with
          hy' | ⟨x, hx, hxm, hxb, rfl⟩
        · exact hb y hy'
        · have hxm' : (x.org = org ∧ x.type_ = atype) ∧ x.email = email := by
            simpa [accMatchesEmail, accInScope] using hxm
          constructor
          · by_contra hc
            have hc' : extConflict b { x with external_id := ext } = true := by
              simpa using hc
            simp only [extConflict, Bool.and_eq_true, bne_iff_ne, ne_eq,
              beq_iff_eq] at hc'
            obtain ⟨⟨⟨h1, h2⟩, h3⟩, h4⟩ := hc'
            have hbo : b.org = org := by rw [h4, hxm'.1.1]
            have hbt : b.type_ = atype := by rw [h3, hxm'.1.2]
            have hbm : accMatchesExt org atype ext b = true := by
              simp [accMatchesExt, accInScope, hbo, hbt, h2]
            rw [hext b (List.mem_cons_self b rest)] at hbm
            exact Bool.noConfusion hbm
          · exact (hb x hx).2
      · exact ih (fun x hx => hext x (List.mem_cons_of_mem b hx)) hrest

/-- C3: the two conditional uniqueness constraints hold as a store
invariant — account creation (which rejects violating writes) and every
resolver call (whose only write is the guarded backfill) preserve it,
while blank `external_id` or blank `email` values never conflict, so any
number of all-blank accounts may coexist in a scope. -/
theorem c3_uniqueness_invariant_preserved :
    (∀ (store : List Account) (a : Account) (store' : List Account),
       AccountInvariant store → createAccount store a = some store' →
       AccountInvariant store') ∧
    (∀ (store : List Account) (org : Nat) (atype ext email : String)
       (tb : Bool), AccountInvariant store →
       AccountInvariant
         (find_by_identifiers store org atype ext email tb).store) ∧
    (∀ a b : Account, a.external_id = "" → b.external_id = "" →
       extConflict a b = false) ∧
    (∀ a b : Account, a.email = "" → b.email = "" →
       emailConflict a b = false) ∧
    (∀ l : List Account, (∀ x ∈ l, x.external_id = "" ∧ x.email = "") →
       AccountInvariant l) := by
  refine ⟨?_, ?_, ?_, ?_, ?_⟩
  · intro store a store' hinv hca
    unfold createAccount at hca
    by_cases hc : (store.any fun b => extConflict a b || emailConflict a b) =
        true
    · rw [if_pos hc] at hca
      exact Option.noConfusion hca
    · rw [if_neg hc] at hca
      obtain rfl : a :: store = store' := by simpa using hca
      refine List.pairwise_cons.mpr ⟨?_, hinv⟩
      intro b hb
      have hfb : (extConflict a b || emailConflict a b) = false := by
        cases he : (extConflict a b || emailConflict a b) with
        | false => rfl
        | true => exact absurd (List.any_eq_true.mpr ⟨b, hb, he⟩) hc
      simpa using hfb
  · intro store org atype ext email tb hinv
    rcases resolve_store_cases store org atype ext email tb with
      h | ⟨a, _, hnone, _, _, _, hstore⟩
    · rw [h]
      exact hinv
    · rw [hstore]
      refine backfill_preserves_invariant org atype email ext store ?_ hinv
      intro x hx
      have := List.find?_eq_none.mp hnone x hx
      simpa using this
  · intro a b ha _
    simp [extConflict, ha]
  · intro a b ha _
    simp [emailConflict, ha]
  · intro l hl
    induction l with
    | nil => simp [AccountInvariant]
    | cons b rest ih =>
      refine List.pairwise_cons.mpr
        ⟨?_, ih fun x hx => hl x (List.mem_cons_of_mem b hx)⟩
      intro x hx
      have hbb := hl b (List.mem_cons_self b rest)
      exact ⟨by simp [extConflict, hbb.1], by simp [emailConflict, hbb.2]⟩

/-- Witness for C3: the invariant holds after a concrete trusted backfill
into a one-account store. -/
theorem c3_witness :
    AccountInvariant
      (find_by_identifiers [⟨"a@org.fr", "", "user", 1, []⟩] 1 "user" "E"
        "a@org.fr" true).store :=
  c3_uniqueness_invariant_preserved.2.1 [⟨"a@org.fr", "", "user", 1, []⟩]
    1 "user" "E" "a@org.fr" true (by simp [AccountInvariant])

/-- Key presence in an appended role table decomposes per part. -/
theorem roleKeyPresent_append (rs ts : List OperatorOrganizationRole)
    (k o : Nat) :
    roleKeyPresent (rs ++ ts) k o =
      (roleKeyPresent rs k o || roleKeyPresent ts k o) := by
  simp [roleKeyPresent, List.any_append]

/-- Key presence in an appended subscription table decomposes per part. -/
theorem subKeyPresent_append (ss ts : List ServiceSubscription)
    (k o : Nat) :
    subKeyPresent (ss ++ ts) k o =
      (subKeyPresent ss k o || subKeyPresent ts k o) := by
  simp [subKeyPresent, List.any_append]

/-- Bulk role insertion only appends rows, and every appended row's key
was absent from the table it was inserted into. -/
theorem insertRoles_append :
    ∀ (pending rs : List OperatorOrganizationRole),
      ∃ t, (insertRoles rs pending).1 = rs ++ t ∧
        ∀ r ∈ t, roleKeyPresent rs r.operator r.organization = false := by
  intro pending
  induction pending with
  | nil => intro rs; exact ⟨[], by simp [insertRoles], by simp⟩
  | cons r rest ih =>
    intro rs
    by_cases hk : roleKeyPresent rs r.operator r.organization = true
    · obtain ⟨t, h1, h2⟩ := ih rs
      refine ⟨t, ?_, h2⟩
      simp [insertRoles, insertRole, hk, h1]
    · have hkf : roleKeyPresent rs r.operator r.organization = false := by
        simpa using hk
      obtain ⟨t, h1, h2⟩ := ih (rs ++ [r])
      refine ⟨r :: t, ?_, ?_⟩
      · simp [insertRoles, insertRole, hkf, h1]
      · intro x hx
        rcases List.mem_cons.mp hx with rfl | hx
        · exact hkf
        · have := h2 x hx
          rw [roleKeyPresent_append] at this
          exact (Bool.or_eq_false_iff.mp this).1

/-- Bulk subscription insertion only appends rows with fresh keys. -/
theorem insertSubs_append :
    ∀ (pending ss : List ServiceSubscription),
      ∃ t, (insertSubs ss pending).1 = ss ++ t ∧
        ∀ s ∈ t, subKeyPresent ss s.organization s.service = false := by
  intro pending
  induction pending with
  | nil => intro ss; exact ⟨[], by simp [insertSubs], by simp⟩
  | cons s rest ih =>
    intro ss
    by_cases hk : subKeyPresent ss s.organization s.service = true
    · obtain ⟨t, h1, h2⟩ := ih ss
      refine ⟨t, ?_, h2⟩
      simp [insertSubs, insertSub, hk, h1]
    · have hkf : subKeyPresent ss s.organization s.service = false := by
        simpa using hk
      obtain ⟨t, h1, h2⟩ := ih (ss ++ [s])
      refine ⟨s :: t, ?_, ?_⟩
      · simp [insertSubs, insertSub, hkf, h1]
      · intro x hx
        rcases List.mem_cons.mp hx with rfl | hx
        · exact hkf
        · have := h2 x hx
          rw [subKeyPresent_append] at this
          exact (Bool.or_eq_false_iff.mp this).1

/-- A role key present before a bulk insertion is still present after. -/
theorem insertRoles_key_mono (rs pending : List OperatorOrganizationRole)
    (k o : Nat) (h : roleKeyPresent rs k o = true) :
    roleKeyPresent (insertRoles rs pending).1 k o = true := by
  obtain ⟨t, h1, _⟩ := insertRoles_append pending rs
  rw [h1, roleKeyPresent_append, h]
  rfl

/-- A subscription key present before a bulk insertion stays present. -/
theorem insertSubs_key_mono (ss pending : List ServiceSubscription)
    (k o : Nat) (h : subKeyPresent ss k o = true) :
    subKeyPresent (insertSubs ss pending).1 k o = true := by
  obtain ⟨t, h1, _⟩ := insertSubs_append pending ss
  rw [h1, subKeyPresent_append, h]
  rfl

/-- After a bulk role insertion, the key of every attempted row is
present. -/
theorem insertRoles_key_present :
    ∀ (pending rs : List OperatorOrganizationRole) (r : OperatorOrganizationRole),
      r ∈ pending →
      roleKeyPresent (insertRoles rs pending).1 r.operator r.organization =
        true := by
  intro pending
  induction pending with
  | nil => intro rs r hr; simp at hr
  | cons p rest ih =>
    intro rs r hr
    rcases List.mem_cons.mp hr with rfl | hr
    · show roleKeyPresent (insertRoles (insertRole rs r).1 rest).1
        r.operator r.organization = true
      apply insertRoles_key_mono
      unfold insertRole
      by_cases hk : roleKeyPresent rs r.operator r.organization = true
      · rwa [if_pos hk]
      · rw [if_neg hk, roleKeyPresent_append]
        have : roleKeyPresent [r] r.operator r.organization = true := by
          simp [roleKeyPresent]
        rw [this]
        simp
    · exact ih (insertRole rs p).1 r hr

/-- After a bulk subscription insertion, every attempted key is
present. -/
theorem insertSubs_key_present :
    ∀ (pending ss : List ServiceSubscription) (s : ServiceSubscription),
      s ∈ pending →
      subKeyPresent (insertSubs ss pending).1 s.organization s.service =
        true := by
  intro pending
  induction pending with
  | nil => intro ss s hs; simp at hs
  | cons p rest ih =>
    intro ss s hs
    rcases List.mem_cons.mp hs with rfl | hs
    · show subKeyPresent (insertSubs (insertSub ss s).1 rest).1
        s.organization s.service = true
      apply insertSubs_key_mono
      unfold insertSub
      by_cases hk : subKeyPresent ss s.organization s.service = true
      · rwa [if_pos hk]
      · rw [if_neg hk, subKeyPresent_append]
        have : subKeyPresent [s] s.organization s.service = true := by
          simp [subKeyPresent]
        rw [this]
        simp
    · exact ih (insertSub ss p).1 s hs

/-- Bulk role insertion is a counted no-op when every attempted key is
already present. -/
theorem insertRoles_noop :
    ∀ (pending rs : List OperatorOrganizationRole),
      (∀ r ∈ pending,
        roleKeyPresent rs r.operator r.organization = true) →
      insertRoles rs pending = (rs, 0) := by
  intro pending
  induction pending with
  | nil => intro rs _; rfl
  | cons r rest ih =>
    intro rs h
    have hr := h r (List.mem_cons_self r rest)
    have hrest := ih rs fun x hx => h x (List.mem_cons_of_mem r hx)
    simp [insertRoles, insertRole, hr, hrest]

/-- Bulk subscription insertion is a counted no-op when every attempted
key is already present. -/
theorem insertSubs_noop :
    ∀ (pending ss : List ServiceSubscription),
      (∀ s ∈ pending,
        subKeyPresent ss s.organization s.service = true) →
      insertSubs ss pending = (ss, 0) := by
  intro pending
  induction pending with
  | nil => intro ss _; rfl
  | cons s rest ih =>
    intro ss h
    have hs := h s (List.mem_cons_self s rest)
    have hrest := ih ss fun x hx => h x (List.mem_cons_of_mem s hx)
    simp [insertSubs, insertSub, hs, hrest]

/-- Processing one operator only appends rows, with keys fresh for the
tables it started from. -/
theorem processOperator_append (db : JoinDB) (orgs : List OrgRow)
    (oscs : List (Nat × Nat)) (op : Operator) :
    ∃ tr ts, (processOperator db orgs oscs op).1.roles = db.roles ++ tr ∧
      (processOperator db orgs oscs op).1.subs = db.subs ++ ts ∧
      (∀ r ∈ tr, roleKeyPresent db.roles r.operator r.organization = false) ∧
      (∀ s ∈ ts, subKeyPresent db.subs s.organization s.service = false) := by
  cases hcfg : op.auto_join with
  | none =>
    exact ⟨[], [], by simp [processOperator, hcfg],
      by simp [processOperator, hcfg], by simp, by simp⟩
  | some cfg =>
    by_cases hact : op.is_active = true
    · obtain ⟨tr, hr1, hr2⟩ :=
        insertRoles_append (operatorRoleRows op cfg orgs) db.roles
      obtain ⟨ts, hs1, hs2⟩ :=
        insertSubs_append (operatorSubRows op cfg orgs oscs) db.subs
      refine ⟨tr, ts, ?_, ?_, hr2, hs2⟩
      · simp [processOperator, hcfg, hact, hr1]
      · simp [processOperator, hcfg, hact, hs1]
    · have hact' : op.is_active = false := by simpa using hact
      exact ⟨[], [], by simp [processOperator, hcfg, hact'],
        by simp [processOperator, hcfg, hact'], by simp, by simp⟩

/-- A full onboarder run only appends rows, with keys fresh for the
initial tables. -/
theorem autoJoinRun_append :
    ∀ (ops : List Operator) (db : JoinDB) (orgs : List OrgRow)
      (oscs : List (Nat × Nat)),
      ∃ tr ts, (autoJoinRun db ops orgs oscs).1.roles = db.roles ++ tr ∧
        (autoJoinRun db ops orgs oscs).1.subs = db.subs ++ ts ∧
        (∀ r ∈ tr,
          roleKeyPresent db.roles r.operator r.organization = false) ∧
        (∀ s ∈ ts,
          subKeyPresent db.subs s.organization s.service = false) := by
  intro ops
  induction ops with
  | nil =>
    intro db orgs oscs
    exact ⟨[], [], by simp [autoJoinRun], by simp [autoJoinRun],
      by simp, by simp⟩
  | cons op rest ih =>
    intro db orgs oscs
    obtain ⟨tr1, ts1, h11, h12, h13, h14⟩ :=
      processOperator_append db orgs oscs op
    obtain ⟨tr2, ts2, h21, h22, h23, h24⟩ :=
      ih (processOperator db orgs oscs op).1 orgs oscs
    refine ⟨tr1 ++ tr2, ts1 ++ ts2, ?_, ?_, ?_, ?_⟩
    · show (autoJoinRun (processOperator db orgs oscs op).1 rest
        orgs oscs).1.roles = _
      rw [h21, h11, List.append_assoc]
    · show (autoJoinRun (processOperator db orgs oscs op).1 rest
        orgs oscs).1.subs = _
      rw [h22, h12, List.append_assoc]
    · intro r hr
      rcases List.mem_append.mp hr with hr | hr
      · exact h13 r hr
      · have := h23 r hr
        rw [h11, roleKeyPresent_append] at this
        exact (Bool.or_eq_false_iff.mp this).1
    · intro s hs
      rcases List.mem_append.mp hs with hs | hs
      · exact h14 s hs
      · have := h24 s hs
        rw [h12, subKeyPresent_append] at this
        exact (Bool.or_eq_false_iff.mp this).1

/-- A role key present before a run is still present after it. -/
theorem autoJoinRun_roles_mono (ops : List Operator) (db : JoinDB)
    (orgs : List OrgRow) (oscs : List (Nat × Nat)) (k o : Nat)
    (h : roleKeyPresent db.roles k o = true) :
    roleKeyPresent (autoJoinRun db ops orgs oscs).1.roles k o = true := by
  obtain ⟨tr, ts, h1, _, _, _⟩ := autoJoinRun_append ops db orgs oscs
  rw [h1, roleKeyPresent_append, h]
  rfl

/-- A subscription key present before a run is still present after it. -/
theorem autoJoinRun_subs_mono (ops : List Operator) (db : JoinDB)
    (orgs : List OrgRow) (oscs : List (Nat × Nat)) (k o : Nat)
    (h : subKeyPresent db.subs k o = true) :
    subKeyPresent (autoJoinRun db ops orgs oscs).1.subs k o = true := by
  obtain ⟨tr, ts, _, h2, _, _⟩ := autoJoinRun_append ops db orgs oscs
  rw [h2, subKeyPresent_append, h]
  rfl

/-- After processing an operator, every key that operator attempted to
insert is present. -/
theorem processOperator_keys (db : JoinDB) (orgs : List OrgRow)
    (oscs : List (Nat × Nat)) (op : Operator) (cfg : AutoJoinConfig)
    (hcfg : op.auto_join = some cfg) (hact : op.is_active = true) :
    (∀ r ∈ operatorRoleRows op cfg orgs,
      roleKeyPresent (processOperator db orgs oscs op).1.roles
        r.operator r.organization = true) ∧
    (∀ s ∈ operatorSubRows op cfg orgs oscs,
      subKeyPresent (processOperator db orgs oscs op).1.subs
        s.organization s.service = true) := by
  constructor
  · intro r hr
    have := insertRoles_key_present (operatorRoleRows op cfg orgs)
      db.roles r hr
    simpa [processOperator, hcfg, hact] using this
  · intro s hs
    have := insertSubs_key_present (operatorSubRows op cfg orgs oscs)
      db.subs s hs
    simpa [processOperator, hcfg, hact] using this

/-- Processing an operator is a counted no-op when all its attempted keys
are already present. -/
theorem processOperator_noop (db : JoinDB) (orgs : List OrgRow)
    (oscs : List (Nat × Nat)) (op : Operator)
    (h : ∀ cfg, op.auto_join = some cfg → op.is_active = true →
      (∀ r ∈ operatorRoleRows op cfg orgs,
        roleKeyPresent db.roles r.operator r.organization = true) ∧
      (∀ s ∈ operatorSubRows op cfg orgs oscs,
        subKeyPresent db.subs s.organization s.service = true)) :
    processOperator db orgs oscs op = (db, 0, 0) := by
  cases hcfg : op.auto_join with
  | none => simp [processOperator, hcfg]
  | some cfg =>
    by_cases hact : op.is_active = true
    · obtain ⟨h1, h2⟩ := h cfg hcfg hact
      have hr := insertRoles_noop (operatorRoleRows op cfg orgs) db.roles h1
      have hs := insertSubs_noop (operatorSubRows op cfg orgs oscs)
        db.subs h2
      simp [processOperator, hcfg, hact, hr, hs]
    · have hact' : op.is_active = false := by simpa using hact
      simp [processOperator, hcfg, hact']

/-- A second onboarder run from the state the first run produced changes
nothing and counts zero creations. -/
theorem autoJoinRun_idempotent :
    ∀ (ops : List Operator) (db : JoinDB) (orgs : List OrgRow)
      (oscs : List (Nat × Nat)),
      autoJoinRun (autoJoinRun db ops orgs oscs).1 ops orgs oscs =
        ((autoJoinRun db ops orgs oscs).1, 0, 0) := by
  intro ops
  induction ops with
  | nil => intro db orgs oscs; rfl
  | cons op rest ih =>
    intro db orgs oscs
    have hproc : processOperator
        (autoJoinRun (processOperator db orgs oscs op).1 rest orgs oscs).1
        orgs oscs op =
        ((autoJoinRun (processOperator db orgs oscs op).1 rest
          orgs oscs).1, 0, 0) := by
      apply processOperator_noop
      intro cfg hcfg hact
      obtain ⟨hk1, hk2⟩ := processOperator_keys db orgs oscs op cfg hcfg hact
      constructor
      · intro r hr
        exact autoJoinRun_roles_mono rest (processOperator db orgs oscs op).1
          orgs oscs _ _ (hk1 r hr)
      · intro s hs
        exact autoJoinRun_subs_mono rest (processOperator db orgs oscs op).1
          orgs oscs _ _ (hk2 s hs)
    have hrest := ih (processOperator db orgs oscs op).1 orgs oscs
    show (let p1 := processOperator
            (autoJoinRun db (op :: rest) orgs oscs).1 orgs oscs op
          let p2 := autoJoinRun p1.1 rest orgs oscs
          (p2.1, p1.2.1 + p2.2.1, p1.2.2 + p2.2.2)) = _
    have hfin : (autoJoinRun db (op :: rest) orgs oscs).1 =
        (autoJoinRun (processOperator db orgs oscs op).1 rest orgs oscs).1 :=
      rfl
    rw [hfin]
    simp only [hproc]
    simpa using hrest

/-- C7: running the onboarder a second time against an unchanged
organization set and operator configuration returns the unchanged tables
with both creation counts 0, and an insert attempt for an
already-existing row is a successful no-op counted as 0 creations rather
than an error. -/
theorem c7_onboarder_idempotent (db : JoinDB) (ops : List Operator)
    (orgs : List OrgRow) (oscs : List (Nat × Nat)) :
    autoJoinRun (autoJoinRun db ops orgs oscs).1 ops orgs oscs =
      ((autoJoinRun db ops orgs oscs).1, 0, 0) ∧
    (∀ (rs : List OperatorOrganizationRole) (r : OperatorOrganizationRole),
      roleKeyPresent rs r.operator r.organization = true →
      insertRole rs r = (rs, 0)) ∧
    (∀ (ss : List ServiceSubscription) (s : ServiceSubscription),
      subKeyPresent ss s.organization s.service = true →
      insertSub ss s = (ss, 0)) := by
  refine ⟨autoJoinRun_idempotent ops db orgs oscs, ?_, ?_⟩
  · intro rs r h
    simp [insertRole, h]
  · intro ss s h
    simp [insertSub, h]

/-- Witness for C7: a concrete second run returns the first run's tables
with zero creation counts, and a duplicate role insert is a counted
no-op. -/
theorem c7_witness :
    autoJoinRun
      (autoJoinRun ⟨[], []⟩ [⟨5, true, some ⟨["commune"], [3]⟩⟩]
        [⟨9, "commune"⟩] [(5, 3)]).1
      [⟨5, true, some ⟨["commune"], [3]⟩⟩] [⟨9, "commune"⟩] [(5, 3)] =
      ((autoJoinRun ⟨[], []⟩ [⟨5, true, some ⟨["commune"], [3]⟩⟩]
        [⟨9, "commune"⟩] [(5, 3)]).1, 0, 0) ∧
    insertRole [⟨5, 9, "manages"⟩] ⟨5, 9, "manages"⟩ =
      ([⟨5, 9, "manages"⟩], 0) :=
  ⟨(c7_onboarder_idempotent ⟨[], []⟩ [⟨5, true, some ⟨["commune"], [3]⟩⟩]
      [⟨9, "commune"⟩] [(5, 3)]).1,
   (c7_onboarder_idempotent ⟨[], []⟩ [⟨5, true, some ⟨["commune"], [3]⟩⟩]
      [⟨9, "commune"⟩] [(5, 3)]).2.1 [⟨5, 9, "manages"⟩] ⟨5, 9, "manages"⟩
      (by decide)⟩

/-- C8: a run of the onboarder keeps every pre-existing subscription row
unchanged and in place, the only row carrying that row's
`(organization, service)` key afterwards is the row itself (so a manually
deactivated subscription is still inactive), and both tables only grow by
appended rows — the onboarder creates, never updates. -/
theorem c8_onboarder_never_mutates (db : JoinDB) (ops : List Operator)
    (orgs : List OrgRow) (oscs : List (Nat × Nat))
    (row : ServiceSubscription) (hrow : row ∈ db.subs)
    (huniq : SubsKeyUnique db.subs) :
    row ∈ (autoJoinRun db ops orgs oscs).1.subs ∧
    (∀ s ∈ (autoJoinRun db ops orgs oscs).1.subs,
       s.organization = row.organization → s.service = row.service →
       s = row) ∧
    (∃ tr ts, (autoJoinRun db ops orgs oscs).1.roles = db.roles ++ tr ∧
       (autoJoinRun db ops orgs oscs).1.subs = db.subs ++ ts) := by
  obtain ⟨tr, ts, h1, h2, _, h4⟩ := autoJoinRun_append ops db orgs oscs
  refine ⟨?_, ?_, tr, ts, h1, h2⟩
  · rw [h2]
    exact List.mem_append_left ts hrow
  · intro s hs ho hsvc
    rw [h2] at hs
    rcases List.mem_append.mp hs with hs | hs
    · by_cases heq : s = row
      · exact heq
      · exfalso
        have hsym : Symmetric (fun a b : ServiceSubscription =>
            ¬(a.organization = b.organization ∧ a.service = b.service)) :=
          fun a b hab hba => hab ⟨hba.1.symm, hba.2.symm⟩
        exact (List.Pairwise.forall hsym huniq hs hrow heq) ⟨ho, hsvc⟩
    · exfalso
      have hfresh := h4 s hs
      have htrue : subKeyPresent db.subs s.organization s.service = true :=
        List.any_eq_true.mpr ⟨row, hrow, by simp [ho, hsvc]⟩
      rw [hfresh] at htrue
      exact Bool.noConfusion htrue

/-- Witness for C8: a manually deactivated subscription row survives a
run whose operator is configured for exactly that organization and
service. -/
theorem c8_witness :
    (⟨9, 3, false⟩ : ServiceSubscription) ∈
      (autoJoinRun ⟨[], [⟨9, 3, false⟩]⟩
        [⟨5, true, some ⟨["commune"], [3]⟩⟩] [⟨9, "commune"⟩]
        [(5, 3)]).1.subs :=
  (c8_onboarder_never_mutates ⟨[], [⟨9, 3, false⟩]⟩
    [⟨5, true, some ⟨["commune"], [3]⟩⟩] [⟨9, "commune"⟩] [(5, 3)]
    ⟨9, 3, false⟩ (by simp) (by simp [SubsKeyUnique])).1

end DeployCenter
